import Mathlib

/-!
Verification of the DroidForge/Apkifyit build service against its
natural-language specification.

The development shallowly embeds the relevant TypeScript modules:

* `BuildQuota` — `src/lib/buildQuota.ts`: the weekly / hourly quota logic.
  The usage store's `Record<string, Record<string, number>>` tables are
  modelled as total functions `String → String → Nat` defaulting to 0,
  which matches the source's `table[id]?.[key] || 0` reads and its
  create-on-write increments.  The week and hour bucket keys
  (`getWeekKey` / `getHourKey`, pure date formatting) are passed in as
  explicit string parameters.  The `QuotaSnapshot` reporting payload is
  not modelled: no claim concerns it, only the allow/reject outcome and
  the stored counters.
* `BuildRunner` — `src/lib/buildRunner.ts`: the post-signing hash
  extraction step and the keystore command-line flag construction.
* `BuildQueue` — the job-store module (imported as `@/lib/buildQueue`):
  `createJob`, `updateJob`, the queued-job selection of `processQueue`,
  and the job/staging-directory state machine.
-/

namespace BuildQuota

/-- `type BuildPlan = 'free' | 'pro' | 'studio'`. -/
inductive BuildPlan where
  | free
  | pro
  | studio
deriving DecidableEq, Repr

/-- The `UsageStore` record: three count tables keyed by identifier and
by week / hour bucket.  Absent entries read as 0. -/
structure UsageStore where
  user : String → String → Nat
  device : String → String → Nat
  ipHourly : String → String → Nat

/-- `getLimitForPlan`: `studio → null`, `pro → 15`, otherwise 3. -/
def getLimitForPlan : BuildPlan → Option Nat
  | .studio => none
  | .pro => some 15
  | .free => some 3

/-- `getScopeCount`: 0 for a falsy id, else the stored count (0 when absent). -/
def getScopeCount (table : String → String → Nat) (id weekKey : String) : Nat :=
  if id = "" then 0 else table id weekKey

/-- `incrementScope`: no-op for a falsy id, else bump the (id, weekKey) cell. -/
def incrementScope (table : String → String → Nat) (id weekKey : String) :
    String → String → Nat :=
  if id = "" then table
  else fun i k => if i = id ∧ k = weekKey then table i k + 1 else table i k

/-- `getIpHourlyCount`: 0 for a falsy ip, else the stored count. -/
def getIpHourlyCount (table : String → String → Nat) (ip hourKey : String) : Nat :=
  if ip = "" then 0 else table ip hourKey

/-- `incrementIpHourly`: no-op for a falsy ip, else bump the (ip, hourKey) cell. -/
def incrementIpHourly (table : String → String → Nat) (ip hourKey : String) :
    String → String → Nat :=
  if ip = "" then table
  else fun i k => if i = ip ∧ k = hourKey then table i k + 1 else table i k

/-- `const IP_HOURLY_LIMIT = 30`. -/
def IP_HOURLY_LIMIT : Nat := 30

/-- The outcome field of `consumeQuota`'s result:
`{ allowed: true }` or `{ allowed: false, reason }`. -/
inductive ConsumeOutcome where
  | allowed
  | rejected (reason : String)
deriving DecidableEq, Repr

/-- The three-counter update performed as a unit on the allowed path
(the `incrementScope` / `incrementIpHourly` calls preceding the single
`writeUsage`). -/
def incrementAll (usage : UsageStore) (userId deviceId ip weekKey hourKey : String) :
    UsageStore :=
  { user := incrementScope usage.user userId weekKey
    device := incrementScope usage.device deviceId weekKey
    ipHourly := incrementIpHourly usage.ipHourly ip hourKey }

/-- `consumeQuota`: the returned outcome paired with the usage store as
persisted after the call (the store is rewritten only on the allowed
path, where all three counters are incremented before the single
`writeUsage`). -/
def consumeQuota (usage : UsageStore) (userId deviceId ip : String)
    (plan : BuildPlan) (weekKey hourKey : String) : ConsumeOutcome × UsageStore :=
  let limit := getLimitForPlan plan
  let userCount := getScopeCount usage.user userId weekKey
  let deviceCount := getScopeCount usage.device deviceId weekKey
  let ipHourlyCount := getIpHourlyCount usage.ipHourly ip hourKey
  let maxCount := max userCount deviceCount
  if IP_HOURLY_LIMIT ≤ ipHourlyCount then
    (.rejected "ip-rate-limit", usage)
  else
    let proceed : ConsumeOutcome × UsageStore :=
      (.allowed, incrementAll usage userId deviceId ip weekKey hourKey)
    match limit with
    | some l => if l ≤ maxCount then (.rejected "weekly-limit", usage) else proceed
    | none => proceed

/-- The usage store with no recorded submissions (`{user:{},device:{},ipHourly:{}}`). -/
def emptyUsage : UsageStore :=
  { user := fun _ _ => 0, device := fun _ _ => 0, ipHourly := fun _ _ => 0 }

/-- A sequence of `consumeQuota` calls for one identity within one week
bucket, one per listed hour key, threading the persisted store. -/
def consumeSeq (usage : UsageStore) (userId deviceId ip : String)
    (plan : BuildPlan) (weekKey : String) :
    List String → List ConsumeOutcome × UsageStore
  | [] => ([], usage)
  | hourKey :: rest =>
    let r := consumeQuota usage userId deviceId ip plan weekKey hourKey
    let tail := consumeSeq r.2 userId deviceId ip plan weekKey rest
    (r.1 :: tail.1, tail.2)

/-- A usage store whose IP-hourly table is saturated at the hourly cap. -/
def ipSaturated : UsageStore :=
  { user := fun _ _ => 0, device := fun _ _ => 0, ipHourly := fun _ _ => 30 }

/-- Every `consumeQuota` call either allows and increments all three
counters, or rejects and leaves the persisted store untouched. -/
theorem consumeQuota_shape (usage : UsageStore) (userId deviceId ip : String)
    (plan : BuildPlan) (weekKey hourKey : String) :
    consumeQuota usage userId deviceId ip plan weekKey hourKey =
      (.allowed, incrementAll usage userId deviceId ip weekKey hourKey) ∨
    (∃ r, consumeQuota usage userId deviceId ip plan weekKey hourKey =
      (.rejected r, usage)) := by
  simp only [consumeQuota]
  split
  · exact Or.inr ⟨_, rfl⟩
  · split
    · split
      · exact Or.inr ⟨_, rfl⟩
      · exact Or.inl rfl
    · exact Or.inl rfl

/-- C1: the checks of `consumeQuota` run in order — IP-hourly cap first
(reason `ip-rate-limit`), then the finite weekly plan limit against
`max(userCount, deviceCount)` (reason `weekly-limit`), and otherwise the
user, device and IP-hourly counters are incremented as a unit and the
call is allowed. -/
theorem consumeQuota_check_order (usage : UsageStore) (userId deviceId ip : String)
    (plan : BuildPlan) (weekKey hourKey : String) :
    (IP_HOURLY_LIMIT ≤ getIpHourlyCount usage.ipHourly ip hourKey →
      consumeQuota usage userId deviceId ip plan weekKey hourKey =
        (.rejected "ip-rate-limit", usage)) ∧
    (getIpHourlyCount usage.ipHourly ip hourKey < IP_HOURLY_LIMIT →
      ∀ l, getLimitForPlan plan = some l →
        l ≤ max (getScopeCount usage.user userId weekKey)
            (getScopeCount usage.device deviceId weekKey) →
        consumeQuota usage userId deviceId ip plan weekKey hourKey =
          (.rejected "weekly-limit", usage)) ∧
    (getIpHourlyCount usage.ipHourly ip hourKey < IP_HOURLY_LIMIT →
      (∀ l, getLimitForPlan plan = some l →
        max (getScopeCount usage.user userId weekKey)
            (getScopeCount usage.device deviceId weekKey) < l) →
      consumeQuota usage userId deviceId ip plan weekKey hourKey =
        (.allowed, incrementAll usage userId deviceId ip weekKey hourKey)) := by
  refine ⟨fun hip => ?_, fun hip l hl hle => ?_, fun hip hlt => ?_⟩
  · simp only [consumeQuota]
    rw [if_pos hip]
  · simp only [consumeQuota]
    rw [if_neg (by omega), hl]
    simp only []
    rw [if_pos hle]
  · simp only [consumeQuota]
    rw [if_neg (by omega)]
    cases hplan : getLimitForPlan plan with
    | none => rfl
    | some l =>
      simp only []
      rw [if_neg (by have := hlt l hplan; omega)]

/-- Witness for C1: on the empty store a free-plan call passes both
checks and increments all three counters. -/
theorem consumeQuota_check_order_witness :
    consumeQuota emptyUsage "user-1" "device-1" "203.0.113.7" .free
        "2025-09-29" "2025-09-30T10" =
      (.allowed, incrementAll emptyUsage "user-1" "device-1" "203.0.113.7"
        "2025-09-29" "2025-09-30T10") :=
  (consumeQuota_check_order emptyUsage "user-1" "device-1" "203.0.113.7" .free
      "2025-09-29" "2025-09-30T10").2.2
    (by decide)
    (fun l hl => by
      simp only [getLimitForPlan, Option.some.injEq] at hl
      subst hl
      decide)

/-- C7: a rejected `consumeQuota` call has no side effect — the
persisted usage store equals the store read at the start of the call. -/
theorem consumeQuota_rejection_pure (usage : UsageStore) (userId deviceId ip : String)
    (plan : BuildPlan) (weekKey hourKey : String) (reason : String)
    (h : (consumeQuota usage userId deviceId ip plan weekKey hourKey).1 =
      .rejected reason) :
    (consumeQuota usage userId deviceId ip plan weekKey hourKey).2 = usage := by
  rcases consumeQuota_shape usage userId deviceId ip plan weekKey hourKey with
    hall | ⟨r, hrej⟩
  · rw [hall] at h
    exact absurd h (by simp)
  · rw [hrej]

/-- Witness for C7: a call rejected by the saturated IP-hourly table
leaves the store exactly as it was. -/
theorem consumeQuota_rejection_pure_witness :
    (consumeQuota ipSaturated "u" "d" "198.51.100.9" .free "w" "h").2 =
      ipSaturated :=
  consumeQuota_rejection_pure ipSaturated "u" "d" "198.51.100.9" .free "w" "h"
    "ip-rate-limit" (by decide)

/-- C9: with an empty source address, `consumeQuota` never rejects with
`ip-rate-limit` and never touches the IP-hourly table. -/
theorem consumeQuota_empty_ip (usage : UsageStore) (userId deviceId : String)
    (plan : BuildPlan) (weekKey hourKey : String) :
    (consumeQuota usage userId deviceId "" plan weekKey hourKey).1 ≠
      .rejected "ip-rate-limit" ∧
    ((consumeQuota usage userId deviceId "" plan weekKey hourKey).2).ipHourly =
      usage.ipHourly := by
  have h0 : getIpHourlyCount usage.ipHourly "" hourKey = 0 := by
    simp [getIpHourlyCount]
  have hinc : incrementIpHourly usage.ipHourly "" hourKey = usage.ipHourly := by
    simp [incrementIpHourly]
  simp only [consumeQuota, h0, IP_HOURLY_LIMIT]
  rw [if_neg (by omega)]
  cases getLimitForPlan plan with
  | none => exact ⟨by simp, by simp [incrementAll, hinc]⟩
  | some l =>
    simp only []
    split
    · exact ⟨by simp, rfl⟩
    · exact ⟨by simp, by simp [incrementAll, hinc]⟩

/-- Pointwise: one scope increment raises any cell by at most one. -/
theorem incrementScope_le (t : String → String → Nat) (id wk i k : String) :
    incrementScope t id wk i k ≤ t i k + 1 := by
  unfold incrementScope
  by_cases h : id = ""
  · rw [if_pos h]
    omega
  · rw [if_neg h]
    show (if i = id ∧ k = wk then t i k + 1 else t i k) ≤ t i k + 1
    split_ifs <;> omega

/-- Pointwise: one IP-hourly increment raises any cell by at most one. -/
theorem incrementIpHourly_le (t : String → String → Nat) (ip hk i k : String) :
    incrementIpHourly t ip hk i k ≤ t i k + 1 := by
  unfold incrementIpHourly
  by_cases h : ip = ""
  · rw [if_pos h]
    omega
  · rw [if_neg h]
    show (if i = ip ∧ k = hk then t i k + 1 else t i k) ≤ t i k + 1
    split_ifs <;> omega

/-- The scope count read back after its own increment: unchanged at 0
for a falsy id, else exactly one more. -/
theorem getScopeCount_incrementScope (t : String → String → Nat) (id wk : String) :
    getScopeCount (incrementScope t id wk) id wk =
      if id = "" then 0 else getScopeCount t id wk + 1 := by
  by_cases h : id = "" <;> simp [getScopeCount, incrementScope, h]

/-- A scope increment raises any scope count by at most one. -/
theorem getScopeCount_incrementScope_le (t : String → String → Nat)
    (id wk id' wk' : String) :
    getScopeCount (incrementScope t id wk) id' wk' ≤
      getScopeCount t id' wk' + 1 := by
  unfold getScopeCount
  split_ifs
  · omega
  · exact incrementScope_le t id wk id' wk'

/-- An IP-hourly increment raises any IP-hourly count by at most one. -/
theorem getIpHourlyCount_incrementIpHourly_le (t : String → String → Nat)
    (ip hk ip' hk' : String) :
    getIpHourlyCount (incrementIpHourly t ip hk) ip' hk' ≤
      getIpHourlyCount t ip' hk' + 1 := by
  unfold getIpHourlyCount
  split_ifs
  · omega
  · exact incrementIpHourly_le t ip hk ip' hk'

/-- On the free plan, a call that passes the IP check reduces to the
weekly-limit test against 3. -/
theorem consumeQuota_free_step (usage : UsageStore) (userId deviceId ip wk hk : String)
    (hip : getIpHourlyCount usage.ipHourly ip hk < IP_HOURLY_LIMIT) :
    consumeQuota usage userId deviceId ip .free wk hk =
      if 3 ≤ max (getScopeCount usage.user userId wk)
          (getScopeCount usage.device deviceId wk)
      then (.rejected "weekly-limit", usage)
      else (.allowed, incrementAll usage userId deviceId ip wk hk) := by
  simp only [consumeQuota, getLimitForPlan]
  rw [if_neg (by omega)]

/-- One allowed free-plan step from a state whose identity counters
stand at `k < 3` and whose IP-hourly cells are bounded by `k`. -/
theorem free_state_step (s : UsageStore) (userId deviceId ip wk hk : String) (k : Nat)
    (hu : getScopeCount s.user userId wk = if userId = "" then 0 else k)
    (hd : getScopeCount s.device deviceId wk = if deviceId = "" then 0 else k)
    (hip : ∀ h, getIpHourlyCount s.ipHourly ip h ≤ k)
    (hk3 : k < 3) :
    consumeQuota s userId deviceId ip .free wk hk =
      (.allowed, incrementAll s userId deviceId ip wk hk) ∧
    getScopeCount (incrementAll s userId deviceId ip wk hk).user userId wk =
      (if userId = "" then 0 else k + 1) ∧
    getScopeCount (incrementAll s userId deviceId ip wk hk).device deviceId wk =
      (if deviceId = "" then 0 else k + 1) ∧
    ∀ h, getIpHourlyCount (incrementAll s userId deviceId ip wk hk).ipHourly ip h ≤
      k + 1 := by
  have hu' : getScopeCount s.user userId wk ≤ k := by
    rw [hu]; split_ifs <;> omega
  have hd' : getScopeCount s.device deviceId wk ≤ k := by
    rw [hd]; split_ifs <;> omega
  have hmax : max (getScopeCount s.user userId wk)
      (getScopeCount s.device deviceId wk) ≤ k := max_le hu' hd'
  refine ⟨?_, ?_, ?_, ?_⟩
  · rw [consumeQuota_free_step s userId deviceId ip wk hk
      (by have := hip hk; simp only [IP_HOURLY_LIMIT]; omega)]
    rw [if_neg (by omega)]
  · simp only [incrementAll]
    rw [getScopeCount_incrementScope, hu]
    split_ifs <;> rfl
  · simp only [incrementAll]
    rw [getScopeCount_incrementScope, hd]
    split_ifs <;> rfl
  · intro h
    simp only [incrementAll]
    have h1 := getIpHourlyCount_incrementIpHourly_le s.ipHourly ip hk ip h
    have h2 := hip h
    omega

/-- The rejecting free-plan step once the identity counters stand at
`3 ≤ k < 30` and at least one identifier is present. -/
theorem free_state_reject (s : UsageStore) (userId deviceId ip wk hk : String) (k : Nat)
    (hu : getScopeCount s.user userId wk = if userId = "" then 0 else k)
    (hd : getScopeCount s.device deviceId wk = if deviceId = "" then 0 else k)
    (hip : ∀ h, getIpHourlyCount s.ipHourly ip h ≤ k)
    (hk3 : 3 ≤ k) (hk30 : k < 30)
    (hid : userId ≠ "" ∨ deviceId ≠ "") :
    consumeQuota s userId deviceId ip .free wk hk =
      (.rejected "weekly-limit", s) := by
  rw [consumeQuota_free_step s userId deviceId ip wk hk
    (by have := hip hk; simp only [IP_HOURLY_LIMIT]; omega)]
  have hmax : 3 ≤ max (getScopeCount s.user userId wk)
      (getScopeCount s.device deviceId wk) := by
    rcases hid with h | h
    · have hue : getScopeCount s.user userId wk = k := by rw [hu, if_neg h]
      have := le_max_left (getScopeCount s.user userId wk)
        (getScopeCount s.device deviceId wk)
      omega
    · have hde : getScopeCount s.device deviceId wk = k := by rw [hd, if_neg h]
      have := le_max_right (getScopeCount s.user userId wk)
        (getScopeCount s.device deviceId wk)
      omega
  rw [if_pos hmax]

/-- C5: from the empty store, a free-plan identity (at least one of
user id / device id present) gets its first three calls in a week
allowed and the fourth rejected with `weekly-limit`; a studio-plan call
is never rejected with `weekly-limit`, whatever the store holds. -/
theorem quota_free_three_studio_unlimited :
    (∀ userId deviceId ip weekKey hk1 hk2 hk3 hk4 : String,
      userId ≠ "" ∨ deviceId ≠ "" →
      (consumeSeq emptyUsage userId deviceId ip .free weekKey
        [hk1, hk2, hk3, hk4]).1 =
        [.allowed, .allowed, .allowed, .rejected "weekly-limit"]) ∧
    (∀ (usage : UsageStore) (userId deviceId ip weekKey hourKey : String),
      (consumeQuota usage userId deviceId ip .studio weekKey hourKey).1 ≠
        .rejected "weekly-limit") := by
  constructor
  · intro userId deviceId ip wk h1 h2 h3 h4 hid
    have hu0 : getScopeCount emptyUsage.user userId wk =
        if userId = "" then 0 else 0 := by
      simp [getScopeCount, emptyUsage]
    have hd0 : getScopeCount emptyUsage.device deviceId wk =
        if deviceId = "" then 0 else 0 := by
      simp [getScopeCount, emptyUsage]
    have hip0 : ∀ h, getIpHourlyCount emptyUsage.ipHourly ip h ≤ 0 := by
      intro h
      simp [getIpHourlyCount, emptyUsage]
    obtain ⟨e1, hu1, hd1, hip1⟩ :=
      free_state_step emptyUsage userId deviceId ip wk h1 0 hu0 hd0 hip0 (by omega)
    obtain ⟨e2, hu2, hd2, hip2⟩ :=
      free_state_step _ userId deviceId ip wk h2 1 hu1 hd1 hip1 (by omega)
    obtain ⟨e3, hu3, hd3, hip3⟩ :=
      free_state_step _ userId deviceId ip wk h3 2 hu2 hd2 hip2 (by omega)
    have e4 :=
      free_state_reject _ userId deviceId ip wk h4 3 hu3 hd3 hip3 (by omega)
        (by omega) hid
    simp [consumeSeq, e1, e2, e3, e4]
  · intro usage userId deviceId ip wk hk
    simp only [consumeQuota, getLimitForPlan]
    split
    · simp
    · simp

/-- Witness for C5: a concrete free-plan identity is allowed three
times and rejected the fourth. -/
theorem quota_free_three_studio_unlimited_witness :
    (consumeSeq emptyUsage "user-1" "dev-1" "ip-1" .free "2025-09-29"
      ["h1", "h2", "h3", "h4"]).1 =
      [.allowed, .allowed, .allowed, .rejected "weekly-limit"] :=
  quota_free_three_studio_unlimited.1 "user-1" "dev-1" "ip-1" "2025-09-29"
    "h1" "h2" "h3" "h4" (Or.inl (by decide))

/-- Witness for C9: concrete empty-address call on the empty store. -/
theorem consumeQuota_empty_ip_witness :
    (consumeQuota emptyUsage "u" "d" "" .free "w" "h").1 ≠
      .rejected "ip-rate-limit" ∧
    ((consumeQuota emptyUsage "u" "d" "" .free "w" "h").2).ipHourly =
      emptyUsage.ipHourly :=
  ⟨(consumeQuota_empty_ip emptyUsage "u" "d" .free "w" "h").1,
   (consumeQuota_empty_ip emptyUsage "u" "d" .free "w" "h").2⟩

end BuildQuota

namespace BuildRunner

/-- The `KeystoreInput` options record of `runAndroidBuild`: keystore
bytes plus optional alias / store password / key password.  The source
field `alias` is spelt `ksAlias` here because `alias` is reserved in
Lean; an absent optional string is represented by `""` (both are falsy
in the source's guards). -/
structure KeystoreInput where
  buffer : List Nat
  ksAlias : String := ""
  pass : String := ""
  keyPass : String := ""
deriving DecidableEq, Repr

/-- JS truthiness of the optional string fields: absent or empty is falsy. -/
def strTruthy : Option String → Bool
  | none => false
  | some s => !(s == "")

/-- The `BuildResult` record of `runAndroidBuild`. -/
structure BuildResult where
  apkBuffer : List Nat
  apkName : String
  sha256 : String
deriving DecidableEq, Repr

/-- The character class `[a-fA-F0-9: ]` of the hash-extraction pattern. -/
def isHashChar (c : Char) : Bool :=
  (Char.ofNat 48 ≤ c && c ≤ Char.ofNat 57) ||
  (Char.ofNat 97 ≤ c && c ≤ Char.ofNat 102) ||
  (Char.ofNat 65 ≤ c && c ≤ Char.ofNat 70) ||
  c == Char.ofNat 58 || c == Char.ofNat 32

/-- The literal part of the pattern `/SHA256: ([a-fA-F0-9: ]+)/`. -/
def shaMarker : List Char := "SHA256: ".data

/-- Leftmost match of `/SHA256: ([a-fA-F0-9: ]+)/`: scan for the
marker, take the longest run of class characters after it (at least
one required, else keep scanning), and return the capture group. -/
def findShaGroup : List Char → Option (List Char)
  | [] => none
  | c :: rest =>
    if shaMarker.isPrefixOf (c :: rest) then
      let grp := ((c :: rest).drop shaMarker.length).takeWhile isHashChar
      if grp.isEmpty then findShaGroup rest else some grp
    else findShaGroup rest

/-- `verifyOutput.stdout.match(/SHA256: ([a-fA-F0-9: ]+)/)` followed by
`match[1].trim()`. -/
def extractSha256 (stdout : String) : Option String :=
  (findShaGroup stdout.data).map fun grp => (String.mk grp).trim

/-- The tail of `runAndroidBuild` after the signed APK has been
produced and read back: the verification invocation is modelled by its
result (`.error` when `execPromise` rejects, `.ok stdout` otherwise);
`sha256` starts at the `'Unknown'` sentinel and is replaced only by a
successful pattern match on the report. -/
def finalizeSignedBuild (signedApkBuffer : List Nat) (signedApkName : String)
    (verifyOutput : Except String String) : BuildResult :=
  { apkBuffer := signedApkBuffer
    apkName := signedApkName
    sha256 :=
      match verifyOutput with
      | .error _ => "Unknown"
      | .ok stdout =>
        match extractSha256 stdout with
        | some h => h
        | none => "Unknown" }

/-- The keystore part of the signer command line: present only when a
keystore buffer, a truthy alias and a truthy store password are all
supplied; the key-password flag additionally needs a truthy key
password. -/
def keystoreArgs (keystore : Option KeystoreInput) : List String :=
  match keystore with
  | none => []
  | some ks =>
    if !(ks.ksAlias == "") && !(ks.pass == "") then
      ["--ks", "user.keystore", "--ksAlias", ks.ksAlias, "--ksPass", ks.pass] ++
        (if !(ks.keyPass == "") then ["--ksKeyPass", ks.keyPass] else [])
    else []

/-- C8: once signing has produced the output, a failed verification
invocation or an unparsable report never fails the build — the result
still carries the signed bytes and the signed output's filename, with
the hash degraded to the `'Unknown'` sentinel. -/
theorem finalizeSignedBuild_hash_best_effort
    (signedApkBuffer : List Nat) (signedApkName : String)
    (verifyOutput : Except String String)
    (h : (∃ e, verifyOutput = .error e) ∨
      (∃ stdout, verifyOutput = .ok stdout ∧ extractSha256 stdout = none)) :
    finalizeSignedBuild signedApkBuffer signedApkName verifyOutput =
      { apkBuffer := signedApkBuffer
        apkName := signedApkName
        sha256 := "Unknown" } := by
  rcases h with ⟨e, he⟩ | ⟨stdout, hok, hnone⟩
  · rw [he]
    rfl
  · rw [hok]
    simp only [finalizeSignedBuild, hnone]

/-- Witness for C8: a verification report with no SHA256 line yields
the signed bytes, the signed name, and the sentinel hash. -/
theorem finalizeSignedBuild_hash_best_effort_witness :
    finalizeSignedBuild [80, 75] "app-aligned-signed.apk"
        (.ok "jar verification failed") =
      { apkBuffer := [80, 75]
        apkName := "app-aligned-signed.apk"
        sha256 := "Unknown" } :=
  finalizeSignedBuild_hash_best_effort [80, 75] "app-aligned-signed.apk"
    (.ok "jar verification failed")
    (Or.inr ⟨"jar verification failed", rfl, by decide⟩)

end BuildRunner

namespace BuildQueue

open BuildRunner (KeystoreInput strTruthy)

/-- `type BuildStatus = 'queued' | 'running' | 'completed' | 'failed'`. -/
inductive BuildStatus where
  | queued
  | running
  | completed
  | failed
deriving DecidableEq, Repr

/-- The `artifact` record of a `BuildJob`. -/
structure ArtifactInfo where
  name : String
  size : Nat
  sha256 : String
deriving DecidableEq, Repr

/-- `BuildSettingsMeta`: the optional metadata `parseBuildSettings`
pulls out of `build-settings.json` inside the uploaded zip. -/
structure BuildSettingsMeta where
  packageName : Option String
  versionName : Option String
  versionCode : Option Nat
deriving DecidableEq, Repr

/-- The `input` record of a `BuildJob`. -/
structure JobInput where
  filename : String
  size : Nat
  packageName : Option String
  versionName : Option String
  versionCode : Option Nat
  hasKeystore : Bool
  skipZipAlign : Bool
deriving DecidableEq, Repr

/-- The persisted `BuildJob` record. -/
structure BuildJob where
  id : String
  status : BuildStatus
  createdAt : Nat
  startedAt : Option Nat := none
  completedAt : Option Nat := none
  error : Option String := none
  input : JobInput
  artifact : Option ArtifactInfo := none
deriving DecidableEq, Repr

/-- The credentials file `keystore.json` staged next to `keystore.jks`
(field `alias` is spelt `ksAlias`; `alias` is reserved in Lean). -/
structure KeystoreMetaFile where
  ksAlias : String
  pass : String
  keyPass : String
deriving DecidableEq, Repr

/-- The contents of a job's staging directory `queue/<id>` as written
by `createJob`: `input.zip` always, `keystore.jks` when keystore bytes
were supplied, `keystore.json` when the credentials were staged. -/
structure StagedJobDir where
  inputZip : List Nat
  keystoreJks : Option (List Nat)
  keystoreJson : Option KeystoreMetaFile
deriving DecidableEq, Repr

/-- `createJob`: stages the inputs under `queue/<id>` and appends a
`queued` job record.  The externally produced values — `randomUUID()`,
`Date.now()` and the zip parse `parseBuildSettings(zipBuffer)` — enter
as the `id`, `createdAt` and `settings` parameters.  The keystore file
is written whenever keystore bytes are present; the credentials file
only when both the alias and the store password are truthy, which is
also exactly the condition recorded in `input.hasKeystore`. -/
def createJob (id : String) (createdAt : Nat) (filename : String)
    (zipBuffer : List Nat) (keystoreBuffer : Option (List Nat))
    (keystoreAlias keystorePass keystoreKeyPass : Option String)
    (skipZipAlign : Bool) (settings : Option BuildSettingsMeta) :
    StagedJobDir × BuildJob :=
  let stagedDir : StagedJobDir :=
    { inputZip := zipBuffer
      keystoreJks := keystoreBuffer
      keystoreJson :=
        match keystoreBuffer with
        | none => none
        | some _ =>
          if strTruthy keystoreAlias && strTruthy keystorePass then
            some { ksAlias := keystoreAlias.getD ""
                   pass := keystorePass.getD ""
                   keyPass := keystoreKeyPass.getD "" }
          else none }
  let job : BuildJob :=
    { id := id
      status := .queued
      createdAt := createdAt
      input :=
        { filename := filename
          size := zipBuffer.length
          packageName := settings.bind BuildSettingsMeta.packageName
          versionName := settings.bind BuildSettingsMeta.versionName
          versionCode := settings.bind BuildSettingsMeta.versionCode
          hasKeystore :=
            keystoreBuffer.isSome && strTruthy keystoreAlias && strTruthy keystorePass
          skipZipAlign := skipZipAlign } }
  (stagedDir, job)

/-- The keystore option `processQueue` passes to `runAndroidBuild`:
present only when the staged keystore bytes exist and the parsed
credentials carry a truthy alias and store password. -/
def workerKeystore (dir : StagedJobDir) : Option KeystoreInput :=
  match dir.keystoreJks with
  | none => none
  | some buf =>
    match dir.keystoreJson with
    | none => none
    | some meta =>
      if !(meta.ksAlias == "") && !(meta.pass == "") then
        some { buffer := buf
               ksAlias := meta.ksAlias
               pass := meta.pass
               keyPass := meta.keyPass }
      else none

/-- `updateJob`: replace the stored record whose id matches, via
`findIndex` and index assignment; absent id leaves the list unchanged. -/
def updateJob (jobs : List BuildJob) (job : BuildJob) : List BuildJob :=
  match jobs.findIdx? fun item => item.id == job.id with
  | none => jobs
  | some index => jobs.set index job

/-- The queued-job selection of `processQueue`:
`jobs.filter(queued).sort((a, b) => a.createdAt - b.createdAt)[0]`,
with the stable sort modelled by insertion sort on `createdAt`. -/
def selectNext (jobs : List BuildJob) : Option BuildJob :=
  (List.insertionSort (fun a b => a.createdAt ≤ b.createdAt)
    (jobs.filter fun job => job.status == .queued)).head?

/-- The `running` update written before the build starts
(`{...next, status: 'running', startedAt: Date.now(), error: undefined}`). -/
def toRunning (job : BuildJob) (startedAt : Nat) : BuildJob :=
  { job with status := .running, startedAt := some startedAt, error := none }

/-- The `completed` update written after a successful build. -/
def toCompleted (job : BuildJob) (completedAt : Nat) (artifact : ArtifactInfo) :
    BuildJob :=
  { job with status := .completed, completedAt := some completedAt
             artifact := some artifact }

/-- The `failed` update written in the catch handler. -/
def toFailed (job : BuildJob) (completedAt : Nat) (message : String) : BuildJob :=
  { job with status := .failed, completedAt := some completedAt
             error := some message }

/-- The observable store: the persisted job list plus the set of
staging directories `queue/<id>` currently present on disk. -/
structure QueueState where
  jobs : List BuildJob
  stagingDirs : List String

/-- One observable transition of the system: `createJob` appending a
fresh `queued` record and its staging directory; `processQueue` marking
the selected queued job `running`; and the worker's terminal updates,
where only the success path removes the job's staging directory — the
catch handler updates the record and removes nothing. -/
inductive Step : QueueState → QueueState → Prop where
  | create (s : QueueState) (id : String) (createdAt : Nat) (filename : String)
      (zipBuffer : List Nat) (keystoreBuffer : Option (List Nat))
      (keystoreAlias keystorePass keystoreKeyPass : Option String)
      (skipZipAlign : Bool) (settings : Option BuildSettingsMeta)
      (hfresh : id ∉ s.jobs.map BuildJob.id) :
      Step s ⟨s.jobs ++ [(createJob id createdAt filename zipBuffer keystoreBuffer
          keystoreAlias keystorePass keystoreKeyPass skipZipAlign settings).2],
        s.stagingDirs ++ [id]⟩
  | start (s : QueueState) (job : BuildJob) (startedAt : Nat)
      (hsel : selectNext s.jobs = some job) :
      Step s ⟨updateJob s.jobs (toRunning job startedAt), s.stagingDirs⟩
  | finishSuccess (s : QueueState) (job : BuildJob) (completedAt : Nat)
      (artifact : ArtifactInfo) (hmem : job ∈ s.jobs)
      (hrun : job.status = .running) :
      Step s ⟨updateJob s.jobs (toCompleted job completedAt artifact),
        s.stagingDirs.erase job.id⟩
  | finishFailure (s : QueueState) (job : BuildJob) (completedAt : Nat)
      (message : String) (hmem : job ∈ s.jobs)
      (hrun : job.status = .running) :
      Step s ⟨updateJob s.jobs (toFailed job completedAt message), s.stagingDirs⟩

/-- The states reachable from the initial empty store. -/
inductive Reach : QueueState → Prop where
  | init : Reach ⟨[], []⟩
  | step {s s' : QueueState} (h : Reach s) (hstep : Step s s') : Reach s'

/-- The status a reader of the job store observes for a given id
(`jobs.find(job => job.id === id)`, first match). -/
def statusOf (jobs : List BuildJob) (id : String) : Option BuildStatus :=
  (jobs.find? fun job => job.id == id).map BuildJob.status

theorem updateJob_nil (job : BuildJob) : updateJob [] job = [] := rfl

/-- `updateJob` replaces the first record with a matching id. -/
theorem updateJob_cons (a : BuildJob) (l : List BuildJob) (job : BuildJob) :
    updateJob (a :: l) job =
      if a.id = job.id then job :: l else a :: updateJob l job := by
  unfold updateJob
  have hcons : ((a :: l).findIdx? fun item => item.id == job.id) =
      if a.id == job.id then some 0
      else (l.findIdx? fun item => item.id == job.id).map (· + 1) := by
    simp [List.findIdx?_cons, List.findIdx?_succ]
  rw [hcons]
  by_cases h : a.id = job.id
  · simp [h]
  · cases hidx : l.findIdx? fun item => item.id == job.id with
    | none => simp [h, hidx]
    | some i => simp [h, hidx]

/-- Members of the updated list come from the old list or are the
replacement record. -/
theorem mem_updateJob (jobs : List BuildJob) (job x : BuildJob)
    (hx : x ∈ updateJob jobs job) : x ∈ jobs ∨ x = job := by
  induction jobs with
  | nil =>
    rw [updateJob_nil] at hx
    simp at hx
  | cons a l ih =>
    rw [updateJob_cons] at hx
    by_cases h : a.id = job.id
    · rw [if_pos h] at hx
      rcases List.mem_cons.mp hx with h1 | h1
      · exact Or.inr h1
      · exact Or.inl (List.mem_cons_of_mem _ h1)
    · rw [if_neg h] at hx
      rcases List.mem_cons.mp hx with h1 | h1
      · exact Or.inl (h1 ▸ List.mem_cons_self _ _)
      · rcases ih h1 with h2 | h2
        · exact Or.inl (List.mem_cons_of_mem _ h2)
        · exact Or.inr h2

/-- `updateJob` never changes the stored id sequence: the replaced slot
had the replacement's id. -/
theorem updateJob_map_id (jobs : List BuildJob) (job : BuildJob) :
    (updateJob jobs job).map BuildJob.id = jobs.map BuildJob.id := by
  induction jobs with
  | nil => rw [updateJob_nil]
  | cons a l ih =>
    rw [updateJob_cons]
    by_cases h : a.id = job.id
    · rw [if_pos h]
      simp [h]
    · rw [if_neg h]
      simp [ih]

/-- After `updateJob`, looking up the replacement's id finds the
replacement, provided the id was stored. -/
theorem find?_updateJob_self (jobs : List BuildJob) (job : BuildJob)
    (h : job.id ∈ jobs.map BuildJob.id) :
    (updateJob jobs job).find? (fun x => x.id == job.id) = some job := by
  induction jobs with
  | nil => simp at h
  | cons a l ih =>
    rw [updateJob_cons]
    by_cases hid : a.id = job.id
    · rw [if_pos hid]
      simp [List.find?_cons]
    · rw [if_neg hid]
      have ha : (a.id == job.id) = false := by simp [hid]
      rw [List.find?_cons, ha]
      simp only [Bool.false_eq_true, if_false]
      apply ih
      simp only [List.map_cons, List.mem_cons] at h
      rcases h with h | h
      · exact absurd h.symm hid
      · exact h

/-- `updateJob` leaves lookups of every other id unchanged. -/
theorem find?_updateJob_other (jobs : List BuildJob) (job : BuildJob) (i : String)
    (h : i ≠ job.id) :
    (updateJob jobs job).find? (fun x => x.id == i) =
      jobs.find? (fun x => x.id == i) := by
  induction jobs with
  | nil => rw [updateJob_nil]
  | cons a l ih =>
    rw [updateJob_cons]
    by_cases hid : a.id = job.id
    · rw [if_pos hid]
      have h1 : (job.id == i) = false := by
        simp
        exact fun hc => h hc.symm
      have h2 : (a.id == i) = false := by rw [hid]; exact h1
      rw [List.find?_cons, List.find?_cons, h1, h2]
    · rw [if_neg hid]
      by_cases hai : a.id = i
      · rw [List.find?_cons, List.find?_cons]
        simp [hai]
      · have ha : (a.id == i) = false := by simp [hai]
        rw [List.find?_cons, List.find?_cons, ha]
        simp only [Bool.false_eq_true, if_false]
        exact ih

/-- With duplicate-free ids, looking up a member's id finds that member. -/
theorem find?_eq_of_mem_nodup (jobs : List BuildJob) (job : BuildJob)
    (hnd : (jobs.map BuildJob.id).Nodup) (hmem : job ∈ jobs) :
    jobs.find? (fun x => x.id == job.id) = some job := by
  induction jobs with
  | nil => simp at hmem
  | cons a l ih =>
    simp only [List.map_cons, List.nodup_cons] at hnd
    rcases List.mem_cons.mp hmem with h | h
    · subst h
      simp [List.find?_cons]
    · have hjl : job.id ∈ l.map BuildJob.id := List.mem_map_of_mem _ h
      have hne : (a.id == job.id) = false := by
        simp
        intro hc
        exact hnd.1 (hc ▸ hjl)
      rw [List.find?_cons, hne]
      simp only [Bool.false_eq_true, if_false]
      exact ih hnd.2 h

/-- Lookup in a list extended on the right: the old answer wins, and a
fresh record is found only by its own predicate. -/
theorem find?_append_singleton (l : List BuildJob) (b : BuildJob)
    (p : BuildJob → Bool) :
    (l ++ [b]).find? p =
      match l.find? p with
      | some x => some x
      | none => if p b then some b else none := by
  induction l with
  | nil =>
    by_cases h : p b <;> simp [List.find?_cons, h]
  | cons a l ih =>
    by_cases h : p a <;> simp [List.find?_cons, h, ih]

/-- The record a stable ascending sort on `createdAt` brings to the
front: the earliest-listed record among those of minimal `createdAt`. -/
def firstMinByCreatedAt : List BuildJob → Option BuildJob
  | [] => none
  | a :: l =>
    match firstMinByCreatedAt l with
    | none => some a
    | some b => if a.createdAt ≤ b.createdAt then some a else some b

theorem firstMinByCreatedAt_eq_none (l : List BuildJob) :
    firstMinByCreatedAt l = none ↔ l = [] := by
  cases l with
  | nil => simp [firstMinByCreatedAt]
  | cons a t =>
    cases hl : firstMinByCreatedAt t with
    | none => simp [firstMinByCreatedAt, hl]
    | some b =>
      by_cases hab : a.createdAt ≤ b.createdAt <;>
        simp [firstMinByCreatedAt, hl, hab]

theorem head?_orderedInsert (a : BuildJob) (s : List BuildJob) :
    (List.orderedInsert (fun x y => x.createdAt ≤ y.createdAt) a s).head? =
      match s.head? with
      | none => some a
      | some b => if a.createdAt ≤ b.createdAt then some a else some b := by
  cases s with
  | nil => rfl
  | cons b t =>
    show (if a.createdAt ≤ b.createdAt then a :: b :: t
      else b :: List.orderedInsert (fun x y => x.createdAt ≤ y.createdAt) a t).head? =
      if a.createdAt ≤ b.createdAt then some a else some b
    split_ifs <;> rfl

theorem head?_insertionSort_eq_firstMin (l : List BuildJob) :
    (List.insertionSort (fun x y => x.createdAt ≤ y.createdAt) l).head? =
      firstMinByCreatedAt l := by
  induction l with
  | nil => rfl
  | cons a l ih =>
    rw [show List.insertionSort (fun x y => x.createdAt ≤ y.createdAt) (a :: l) =
      List.orderedInsert (fun x y => x.createdAt ≤ y.createdAt) a
        (List.insertionSort (fun x y => x.createdAt ≤ y.createdAt) l) from rfl]
    rw [head?_orderedInsert, ih]
    cases h : firstMinByCreatedAt l with
    | none => simp [firstMinByCreatedAt, h]
    | some b => simp [firstMinByCreatedAt, h]

/-- The element `firstMinByCreatedAt` returns splits the list so that
everything listed before it is strictly younger than minimal, and it is
minimal over the whole list. -/
theorem firstMinByCreatedAt_spec (l : List BuildJob) (j : BuildJob)
    (h : firstMinByCreatedAt l = some j) :
    ∃ l1 l2, l = l1 ++ j :: l2 ∧ (∀ k ∈ l1, j.createdAt < k.createdAt) ∧
      ∀ k ∈ l, j.createdAt ≤ k.createdAt := by
  induction l generalizing j with
  | nil => simp [firstMinByCreatedAt] at h
  | cons a l ih =>
    cases hl : firstMinByCreatedAt l with
    | none =>
      have hnil : l = [] := (firstMinByCreatedAt_eq_none l).mp hl
      subst hnil
      simp only [firstMinByCreatedAt, Option.some.injEq] at h
      subst h
      exact ⟨[], [], rfl, by simp, by simp⟩
    | some b =>
      obtain ⟨l1, l2, hsplit, hstrict, hmin⟩ := ih b hl
      by_cases hab : a.createdAt ≤ b.createdAt
      · have heq : firstMinByCreatedAt (a :: l) = some a := by
          simp [firstMinByCreatedAt, hl, hab]
        rw [heq] at h
        injection h with h
        subst h
        refine ⟨[], l, rfl, by simp, ?_⟩
        intro k hk
        rcases List.mem_cons.mp hk with rfl | hk'
        · exact le_refl _
        · exact le_trans hab (hmin k hk')
      · have heq : firstMinByCreatedAt (a :: l) = some b := by
          simp [firstMinByCreatedAt, hl, hab]
        rw [heq] at h
        injection h with h
        subst h
        refine ⟨a :: l1, l2, by rw [hsplit, List.cons_append], ?_, ?_⟩
        · intro k hk
          rcases List.mem_cons.mp hk with rfl | hk'
          · omega
          · exact hstrict k hk'
        · intro k hk
          rcases List.mem_cons.mp hk with rfl | hk'
          · omega
          · exact hmin k hk'

theorem selectNext_eq_firstMin (jobs : List BuildJob) :
    selectNext jobs =
      firstMinByCreatedAt (jobs.filter fun job => job.status == .queued) :=
  head?_insertionSort_eq_firstMin _

/-- The job `selectNext` returns is a stored queued job. -/
theorem selectNext_mem_queued (jobs : List BuildJob) (job : BuildJob)
    (h : selectNext jobs = some job) :
    job ∈ jobs ∧ job.status = .queued := by
  rw [selectNext_eq_firstMin] at h
  obtain ⟨l1, l2, hsplit, _, _⟩ := firstMinByCreatedAt_spec _ _ h
  have hmem : job ∈ jobs.filter fun j => j.status == .queued := by
    rw [hsplit]
    exact List.mem_append_right _ (List.mem_cons_self _ _)
  have := List.mem_filter.mp hmem
  refine ⟨this.1, ?_⟩
  simpa using this.2

/-- The record fields `createJob` writes for the new job. -/
theorem createJob_job_fields (id : String) (createdAt : Nat) (filename : String)
    (zipBuffer : List Nat) (keystoreBuffer : Option (List Nat))
    (keystoreAlias keystorePass keystoreKeyPass : Option String)
    (skipZipAlign : Bool) (settings : Option BuildSettingsMeta) :
    ((createJob id createdAt filename zipBuffer keystoreBuffer keystoreAlias
        keystorePass keystoreKeyPass skipZipAlign settings).2).id = id ∧
    ((createJob id createdAt filename zipBuffer keystoreBuffer keystoreAlias
        keystorePass keystoreKeyPass skipZipAlign settings).2).status = .queued ∧
    ((createJob id createdAt filename zipBuffer keystoreBuffer keystoreAlias
        keystorePass keystoreKeyPass skipZipAlign settings).2).artifact = none ∧
    ((createJob id createdAt filename zipBuffer keystoreBuffer keystoreAlias
        keystorePass keystoreKeyPass skipZipAlign settings).2).error = none ∧
    ((createJob id createdAt filename zipBuffer keystoreBuffer keystoreAlias
        keystorePass keystoreKeyPass skipZipAlign settings).2).createdAt = createdAt :=
  ⟨rfl, rfl, rfl, rfl, rfl⟩

/-- Per-record well-formedness: `artifact` accompanies exactly the
`completed` status and `error` exactly the `failed` status. -/
def JobWf (job : BuildJob) : Prop :=
  (job.artifact.isSome ↔ job.status = .completed) ∧
  (job.error.isSome ↔ job.status = .failed)

/-- The inductive store invariant: stored ids are duplicate-free, the
staging directories on disk form a sub-sequence of the stored ids,
every record is well-formed, and no completed job keeps a staging
directory. -/
def StoreInv (s : QueueState) : Prop :=
  (s.jobs.map BuildJob.id).Nodup ∧
  List.Sublist s.stagingDirs (s.jobs.map BuildJob.id) ∧
  (∀ job ∈ s.jobs, JobWf job) ∧
  (∀ job ∈ s.jobs, job.status = .completed → job.id ∉ s.stagingDirs)

/-- Every reachable store satisfies the invariant. -/
theorem reach_storeInv {s : QueueState} (h : Reach s) : StoreInv s := by
  induction h with
  | init => exact ⟨List.nodup_nil, List.Sublist.refl _, by simp, by simp⟩
  | @step s s' hre hstep ih =>
    obtain ⟨hnd, hsub, hwf, hcomp⟩ := ih
    cases hstep with
    | create id createdAt filename zipBuffer keystoreBuffer kA kP kKP skips
        settings hfresh =>
      have hf := createJob_job_fields id createdAt filename zipBuffer
        keystoreBuffer kA kP kKP skips settings
      refine ⟨?_, ?_, ?_, ?_⟩
      · simp only [List.map_append, List.map_cons, List.map_nil]
        rw [hf.1, List.nodup_append]
        refine ⟨hnd, List.nodup_singleton _, ?_⟩
        intro x hx hx1
        simp only [List.mem_singleton] at hx1
        subst hx1
        exact hfresh hx
      · simp only [List.map_append, List.map_cons, List.map_nil]
        rw [hf.1]
        exact hsub.append_right [id]
      · intro job hjob
        rcases List.mem_append.mp hjob with hj | hj
        · exact hwf job hj
        · simp only [List.mem_singleton] at hj
          subst hj
          unfold JobWf
          rw [hf.2.1, hf.2.2.1, hf.2.2.2.1]
          simp
      · intro job hjob hcompl
        rcases List.mem_append.mp hjob with hj | hj
        · intro hmem'
          rcases List.mem_append.mp hmem' with hd | hd
          · exact hcomp job hj hcompl hd
          · simp only [List.mem_singleton] at hd
            exact hfresh (hd ▸ List.mem_map_of_mem BuildJob.id hj)
        · simp only [List.mem_singleton] at hj
          subst hj
          rw [hf.2.1] at hcompl
          simp at hcompl
    | start job startedAt hsel =>
      obtain ⟨hjmem, hjq⟩ := selectNext_mem_queued s.jobs job hsel
      refine ⟨?_, ?_, ?_, ?_⟩
      · rw [updateJob_map_id]
        exact hnd
      · rw [updateJob_map_id]
        exact hsub
      · intro x hx
        rcases mem_updateJob _ _ _ hx with hold | hnew
        · exact hwf x hold
        · subst hnew
          have hjwf := hwf job hjmem
          have hart : job.artifact = none := by
            cases hja : job.artifact with
            | none => rfl
            | some v =>
              have hc := hjwf.1.mp (by rw [hja]; rfl)
              rw [hjq] at hc
              simp at hc
          exact ⟨by simp [toRunning, hart], by simp [toRunning]⟩
      · intro x hx hcompl
        rcases mem_updateJob _ _ _ hx with hold | hnew
        · exact hcomp x hold hcompl
        · subst hnew
          have hst : (toRunning job startedAt).status = .running := rfl
          rw [hst] at hcompl
          simp at hcompl
    | finishSuccess job completedAt artifact hjmem hrun =>
      refine ⟨?_, ?_, ?_, ?_⟩
      · rw [updateJob_map_id]
        exact hnd
      · rw [updateJob_map_id]
        exact (List.erase_sublist _ _).trans hsub
      · intro x hx
        rcases mem_updateJob _ _ _ hx with hold | hnew
        · exact hwf x hold
        · subst hnew
          have hjwf := hwf job hjmem
          have herr : job.error = none := by
            cases hje : job.error with
            | none => rfl
            | some v =>
              have hc := hjwf.2.mp (by rw [hje]; rfl)
              rw [hrun] at hc
              simp at hc
          exact ⟨by simp [toCompleted], by simp [toCompleted, herr]⟩
      · intro x hx hcompl
        rcases mem_updateJob _ _ _ hx with hold | hnew
        · intro hmem'
          exact hcomp x hold hcompl (List.mem_of_mem_erase hmem')
        · subst hnew
          have hid : (toCompleted job completedAt artifact).id = job.id := rfl
          rw [hid]
          exact (hsub.nodup hnd).not_mem_erase
    | finishFailure job completedAt message hjmem hrun =>
      refine ⟨?_, ?_, ?_, ?_⟩
      · rw [updateJob_map_id]
        exact hnd
      · rw [updateJob_map_id]
        exact hsub
      · intro x hx
        rcases mem_updateJob _ _ _ hx with hold | hnew
        · exact hwf x hold
        · subst hnew
          have hjwf := hwf job hjmem
          have hart : job.artifact = none := by
            cases hja : job.artifact with
            | none => rfl
            | some v =>
              have hc := hjwf.1.mp (by rw [hja]; rfl)
              rw [hrun] at hc
              simp at hc
          exact ⟨by simp [toFailed, hart], by simp [toFailed]⟩
      · intro x hx hcompl
        rcases mem_updateJob _ _ _ hx with hold | hnew
        · exact hcomp x hold hcompl
        · subst hnew
          have hst : (toFailed job completedAt message).status = .failed := rfl
          rw [hst] at hcompl
          simp at hcompl

/-- A concrete submitted job used by the counterexample traces. -/
def cxJob : BuildJob :=
  (createJob "job-a" 0 "app.zip" [80, 75] none none none none false none).2

/-- The error message of the missing-SDK failure path. -/
def cxErrMsg : String :=
  "ANDROID_HOME or ANDROID_SDK_ROOT is not set. Install Android SDK and set the environment variable."

/-- The store after `job-a` was created, started, and failed. -/
def cxState3 : QueueState :=
  ⟨updateJob (updateJob [cxJob] (toRunning cxJob 1))
      (toFailed (toRunning cxJob 1) 2 cxErrMsg),
    ["job-a"]⟩

theorem cxReach3 : Reach cxState3 := by
  have r1 : Reach ⟨[cxJob], ["job-a"]⟩ :=
    Reach.step Reach.init
      (Step.create ⟨[], []⟩ "job-a" 0 "app.zip" [80, 75] none none none none
        false none (by simp))
  have r2 : Reach ⟨updateJob [cxJob] (toRunning cxJob 1), ["job-a"]⟩ :=
    Reach.step r1 (Step.start ⟨[cxJob], ["job-a"]⟩ cxJob 1 (by decide))
  exact Reach.step r2
    (Step.finishFailure ⟨updateJob [cxJob] (toRunning cxJob 1), ["job-a"]⟩
      (toRunning cxJob 1) 2 cxErrMsg (by decide) rfl)

/-- A concrete artifact record for the success trace. -/
def cyArtifact : ArtifactInfo :=
  { name := "app-aligned-debugSigned.apk", size := 4, sha256 := "Unknown" }

/-- A concrete submitted job used by the success trace. -/
def cyJob : BuildJob :=
  (createJob "job-b" 0 "app.zip" [80, 75] none none none none false none).2

/-- The store after `job-b` was created, started, and completed. -/
def cyState3 : QueueState :=
  ⟨updateJob (updateJob [cyJob] (toRunning cyJob 1))
      (toCompleted (toRunning cyJob 1) 2 cyArtifact),
    ["job-b"].erase "job-b"⟩

theorem cyReach3 : Reach cyState3 := by
  have r1 : Reach ⟨[cyJob], ["job-b"]⟩ :=
    Reach.step Reach.init
      (Step.create ⟨[], []⟩ "job-b" 0 "app.zip" [80, 75] none none none none
        false none (by simp))
  have r2 : Reach ⟨updateJob [cyJob] (toRunning cyJob 1), ["job-b"]⟩ :=
    Reach.step r1 (Step.start ⟨[cyJob], ["job-b"]⟩ cyJob 1 (by decide))
  exact Reach.step r2
    (Step.finishSuccess ⟨updateJob [cyJob] (toRunning cyJob 1), ["job-b"]⟩
      (toRunning cyJob 1) 2 cyArtifact (by decide) rfl)

/-- C2 counterexample: a failed job is terminal, yet its staging
directory `queue/job-a` survives — the catch handler of `processQueue`
never removes it, only the success path does. -/
theorem staging_dir_retained_on_failure :
    Reach cxState3 ∧ statusOf cxState3.jobs "job-a" = some .failed ∧
    "job-a" ∈ cxState3.stagingDirs :=
  ⟨cxReach3, by decide, by decide⟩

/-- C2 (amended): after the terminal transition to `completed` the
job's staging directory is deleted; after a transition to `failed` it
is retained. -/
theorem completed_staging_dir_removed {s : QueueState} (h : Reach s) :
    ∀ job ∈ s.jobs, job.status = .completed → job.id ∉ s.stagingDirs :=
  (reach_storeInv h).2.2.2

/-- Witness for the amended C2: the completed `job-b` has no staging
directory left. -/
theorem completed_staging_dir_removed_witness :
    (toCompleted (toRunning cyJob 1) 2 cyArtifact).id ∉ cyState3.stagingDirs :=
  completed_staging_dir_removed cyReach3
    (toCompleted (toRunning cyJob 1) 2 cyArtifact) (by decide) rfl

/-- C3: across any reachable step, each stored id's status either stays
put, appears as `queued`, moves `queued → running`, or moves
`running → completed` / `running → failed`; in particular `completed`
and `failed` are terminal and `running` is never skipped. -/
theorem step_status_transitions {s s' : QueueState} (hre : Reach s)
    (hstep : Step s s') (i : String) :
    statusOf s'.jobs i = statusOf s.jobs i ∨
    (statusOf s.jobs i = none ∧ statusOf s'.jobs i = some .queued) ∨
    (statusOf s.jobs i = some .queued ∧ statusOf s'.jobs i = some .running) ∨
    (statusOf s.jobs i = some .running ∧
      (statusOf s'.jobs i = some .completed ∨ statusOf s'.jobs i = some .failed)) := by
  have hinv := reach_storeInv hre
  cases hstep with
  | create id createdAt filename zipBuffer keystoreBuffer kA kP kKP skips
      settings hfresh =>
    have hf := createJob_job_fields id createdAt filename zipBuffer
      keystoreBuffer kA kP kKP skips settings
    generalize hgen : (createJob id createdAt filename zipBuffer keystoreBuffer
      kA kP kKP skips settings).2 = nj at hf ⊢
    unfold statusOf
    cases hfind : s.jobs.find? (fun x => x.id == i) with
    | some x =>
      left
      rw [find?_append_singleton, hfind]
    | none =>
      rw [find?_append_singleton, hfind]
      by_cases hid : nj.id == i
      · right
        left
        exact ⟨rfl, by simp [hid, hf.2.1]⟩
      · left
        simp [hid]
  | start job startedAt hsel =>
    obtain ⟨hjmem, hjq⟩ := selectNext_mem_queued s.jobs job hsel
    by_cases hid : i = job.id
    · subst hid
      right; right; left
      constructor
      · unfold statusOf
        rw [find?_eq_of_mem_nodup s.jobs job hinv.1 hjmem]
        simp [hjq]
      · unfold statusOf
        have hmm0 : job.id ∈ s.jobs.map BuildJob.id :=
          List.mem_map_of_mem BuildJob.id hjmem
        have hmm : (toRunning job startedAt).id ∈ s.jobs.map BuildJob.id := hmm0
        have hfs : (updateJob s.jobs (toRunning job startedAt)).find?
            (fun x => x.id == job.id) = some (toRunning job startedAt) :=
          find?_updateJob_self s.jobs (toRunning job startedAt) hmm
        rw [hfs]
        rfl
    · left
      unfold statusOf
      have hfo : (updateJob s.jobs (toRunning job startedAt)).find?
          (fun x => x.id == i) = s.jobs.find? (fun x => x.id == i) :=
        find?_updateJob_other s.jobs (toRunning job startedAt) i hid
      rw [hfo]
  | finishSuccess job completedAt artifact hjmem hrun =>
    by_cases hid : i = job.id
    · subst hid
      right; right; right
      refine ⟨?_, Or.inl ?_⟩
      · unfold statusOf
        rw [find?_eq_of_mem_nodup s.jobs job hinv.1 hjmem]
        simp [hrun]
      · unfold statusOf
        have hmm0 : job.id ∈ s.jobs.map BuildJob.id :=
          List.mem_map_of_mem BuildJob.id hjmem
        have hmm : (toCompleted job completedAt artifact).id ∈
            s.jobs.map BuildJob.id := hmm0
        have hfs : (updateJob s.jobs (toCompleted job completedAt artifact)).find?
            (fun x => x.id == job.id) = some (toCompleted job completedAt artifact) :=
          find?_updateJob_self s.jobs (toCompleted job completedAt artifact) hmm
        rw [hfs]
        rfl
    · left
      unfold statusOf
      have hfo : (updateJob s.jobs (toCompleted job completedAt artifact)).find?
          (fun x => x.id == i) = s.jobs.find? (fun x => x.id == i) :=
        find?_updateJob_other s.jobs (toCompleted job completedAt artifact) i hid
      rw [hfo]
  | finishFailure job completedAt message hjmem hrun =>
    by_cases hid : i = job.id
    · subst hid
      right; right; right
      refine ⟨?_, Or.inr ?_⟩
      · unfold statusOf
        rw [find?_eq_of_mem_nodup s.jobs job hinv.1 hjmem]
        simp [hrun]
      · unfold statusOf
        have hmm0 : job.id ∈ s.jobs.map BuildJob.id :=
          List.mem_map_of_mem BuildJob.id hjmem
        have hmm : (toFailed job completedAt message).id ∈
            s.jobs.map BuildJob.id := hmm0
        have hfs : (updateJob s.jobs (toFailed job completedAt message)).find?
            (fun x => x.id == job.id) = some (toFailed job completedAt message) :=
          find?_updateJob_self s.jobs (toFailed job completedAt message) hmm
        rw [hfs]
        rfl
    · left
      unfold statusOf
      have hfo : (updateJob s.jobs (toFailed job completedAt message)).find?
          (fun x => x.id == i) = s.jobs.find? (fun x => x.id == i) :=
        find?_updateJob_other s.jobs (toFailed job completedAt message) i hid
      rw [hfo]

/-- Witness for C3: the create step on the empty store surfaces the new
job as `queued`. -/
theorem step_status_transitions_witness :
    statusOf [cxJob] "job-a" = statusOf [] "job-a" ∨
    (statusOf ([] : List BuildJob) "job-a" = none ∧
      statusOf [cxJob] "job-a" = some .queued) ∨
    (statusOf ([] : List BuildJob) "job-a" = some .queued ∧
      statusOf [cxJob] "job-a" = some .running) ∨
    (statusOf ([] : List BuildJob) "job-a" = some .running ∧
      (statusOf [cxJob] "job-a" = some .completed ∨
        statusOf [cxJob] "job-a" = some .failed)) :=
  step_status_transitions Reach.init
    (Step.create ⟨[], []⟩ "job-a" 0 "app.zip" [80, 75] none none none none
      false none (by simp)) "job-a"

/-- C4: in every reachable store, a job's `artifact` is present exactly
when its status is `completed`, and its `error` exactly when its status
is `failed`. -/
theorem reachable_artifact_error_iff {s : QueueState} (h : Reach s) :
    ∀ job ∈ s.jobs, (job.artifact.isSome ↔ job.status = .completed) ∧
      (job.error.isSome ↔ job.status = .failed) := by
  intro job hj
  exact (reach_storeInv h).2.2.1 job hj

/-- Witness for C4: the failed job of the concrete trace carries an
error and no artifact. -/
theorem reachable_artifact_error_iff_witness :
    ((toFailed (toRunning cxJob 1) 2 cxErrMsg).artifact.isSome ↔
      (toFailed (toRunning cxJob 1) 2 cxErrMsg).status = .completed) ∧
    ((toFailed (toRunning cxJob 1) 2 cxErrMsg).error.isSome ↔
      (toFailed (toRunning cxJob 1) 2 cxErrMsg).status = .failed) :=
  reachable_artifact_error_iff cxReach3
    (toFailed (toRunning cxJob 1) 2 cxErrMsg) (by decide)

/-- C6: `selectNext` returns nothing exactly when no queued job exists,
and otherwise the queued job with minimal `createdAt`, earliest in
store order among ties — FIFO creation order. -/
theorem selectNext_fifo (jobs : List BuildJob) :
    (selectNext jobs = none ↔
      jobs.filter (fun job => job.status == .queued) = []) ∧
    ∀ job, selectNext jobs = some job →
      ∃ l1 l2, jobs.filter (fun j => j.status == .queued) = l1 ++ job :: l2 ∧
        (∀ k ∈ l1, job.createdAt < k.createdAt) ∧
        ∀ k ∈ jobs, k.status = .queued → job.createdAt ≤ k.createdAt := by
  constructor
  · rw [selectNext_eq_firstMin]
    exact firstMinByCreatedAt_eq_none _
  · intro job h
    rw [selectNext_eq_firstMin] at h
    obtain ⟨l1, l2, hsplit, hstrict, hmin⟩ := firstMinByCreatedAt_spec _ _ h
    refine ⟨l1, l2, hsplit, hstrict, ?_⟩
    intro k hk hkq
    exact hmin k (List.mem_filter.mpr ⟨hk, by simp [hkq]⟩)

/-- A small job input record for the scheduling example. -/
def wInput : JobInput :=
  { filename := "w.zip", size := 1, packageName := none, versionName := none
    versionCode := none, hasKeystore := false, skipZipAlign := false }

/-- Two queued jobs sharing one creation timestamp. -/
def wJobA : BuildJob :=
  { id := "a", status := .queued, createdAt := 5, input := wInput }

def wJobB : BuildJob :=
  { id := "b", status := .queued, createdAt := 5, input := wInput }

/-- Witness for C6: with a creation-time tie, the earlier-inserted job
is selected. -/
theorem selectNext_fifo_witness :
    ∃ l1 l2, [wJobA, wJobB].filter (fun j => j.status == .queued) =
        l1 ++ wJobA :: l2 ∧
      (∀ k ∈ l1, wJobA.createdAt < k.createdAt) ∧
      ∀ k ∈ [wJobA, wJobB], k.status = .queued →
        wJobA.createdAt ≤ k.createdAt :=
  (selectNext_fifo [wJobA, wJobB]).2 wJobA (by decide)

/-- C10: with keystore bytes but a missing (or empty) alias or store
password, `createJob` stages no credentials file, records
`hasKeystore = false`, and the worker passes no keystore to the signer,
so the signer command line carries no keystore flags. -/
theorem keystore_without_credentials_ignored (id : String) (createdAt : Nat)
    (filename : String) (zipBuffer ksBuf : List Nat)
    (keystoreAlias keystorePass keystoreKeyPass : Option String)
    (skipZipAlign : Bool) (settings : Option BuildSettingsMeta)
    (hmiss : (strTruthy keystoreAlias && strTruthy keystorePass) = false) :
    ((createJob id createdAt filename zipBuffer (some ksBuf) keystoreAlias
        keystorePass keystoreKeyPass skipZipAlign settings).1).keystoreJson =
      none ∧
    ((createJob id createdAt filename zipBuffer (some ksBuf) keystoreAlias
        keystorePass keystoreKeyPass skipZipAlign settings).2).input.hasKeystore =
      false ∧
    workerKeystore ((createJob id createdAt filename zipBuffer (some ksBuf)
        keystoreAlias keystorePass keystoreKeyPass skipZipAlign settings).1) =
      none ∧
    BuildRunner.keystoreArgs (workerKeystore ((createJob id createdAt filename
        zipBuffer (some ksBuf) keystoreAlias keystorePass keystoreKeyPass
        skipZipAlign settings).1)) = [] := by
  have hwk : workerKeystore ((createJob id createdAt filename zipBuffer
      (some ksBuf) keystoreAlias keystorePass keystoreKeyPass skipZipAlign
      settings).1) = none := by
    simp [workerKeystore, createJob, hmiss]
  refine ⟨?_, ?_, hwk, ?_⟩
  · simp [createJob, hmiss]
  · simp [createJob, hmiss]
  · rw [hwk]
    rfl

/-- Witness for C10: keystore bytes with an alias but no store password
are ignored end to end. -/
theorem keystore_without_credentials_ignored_witness :
    ((createJob "job-k" 0 "app.zip" [1] (some [2]) (some "alias1") none none
        false none).1).keystoreJson = none ∧
    ((createJob "job-k" 0 "app.zip" [1] (some [2]) (some "alias1") none none
        false none).2).input.hasKeystore = false ∧
    workerKeystore ((createJob "job-k" 0 "app.zip" [1] (some [2]) (some "alias1")
        none none false none).1) = none ∧
    BuildRunner.keystoreArgs (workerKeystore ((createJob "job-k" 0 "app.zip" [1]
        (some [2]) (some "alias1") none none false none).1)) = [] :=
  keystore_without_credentials_ignored "job-k" 0 "app.zip" [1] [2]
    (some "alias1") none none false none (by decide)

end BuildQueue
